import Mathlib

/-!
Verification of the batched map-reduce pipeline of the job-market-analysis
repository (`src/agents`).  The Python source is shallowly embedded: JSON
payloads become the inductive `Json`, Python dicts become insertion-ordered
association lists, machine-level serialization sizes are `String.length` of a
faithful `json.dumps` model, fallible code returns `Except`.  External services
(the LLM, the job-search API, the filesystem cache) are oracle parameters.
-/

set_option maxRecDepth 4000

namespace JobMarket

/-- JSON-like values as produced by `json.loads` in the source.  Numbers are
modelled as integers (every count the spec talks about is an integer); Python
dicts keep insertion order, so objects are association lists. -/
inductive Json where
  | null
  | bool (b : Bool)
  | int (n : Int)
  | str (s : String)
  | arr (elems : List Json)
  | obj (fields : List (String × Json))
deriving Repr

mutual
def Json.beq : Json → Json → Bool
  | .null, .null => true
  | .bool a, .bool b => a == b
  | .int a, .int b => a == b
  | .str a, .str b => a == b
  | .arr a, .arr b => Json.beqList a b
  | .obj a, .obj b => Json.beqFields a b
  | _, _ => false

def Json.beqList : List Json → List Json → Bool
  | [], [] => true
  | a :: as, b :: bs => Json.beq a b && Json.beqList as bs
  | _, _ => false

def Json.beqFields : List (String × Json) → List (String × Json) → Bool
  | [], [] => true
  | (ka, va) :: as, (kb, vb) :: bs => ka == kb && Json.beq va vb && Json.beqFields as bs
  | _, _ => false
end

mutual
theorem Json.beq_iff : ∀ a b : Json, Json.beq a b = true ↔ a = b
  | .null, b => by cases b <;> simp [Json.beq]
  | .bool a, b => by cases b <;> simp [Json.beq]
  | .int a, b => by cases b <;> simp [Json.beq]
  | .str a, b => by cases b <;> simp [Json.beq]
  | .arr a, b => by
      cases b <;> simp [Json.beq]
      exact Json.beqList_iff a _
  | .obj a, b => by
      cases b <;> simp [Json.beq]
      exact Json.beqFields_iff a _

theorem Json.beqList_iff : ∀ a b : List Json, Json.beqList a b = true ↔ a = b
  | [], b => by cases b <;> simp [Json.beqList]
  | a :: as, b => by
      cases b with
      | nil => simp [Json.beqList]
      | cons b bs =>
          simp only [Json.beqList, Bool.and_eq_true, List.cons.injEq]
          rw [Json.beq_iff, Json.beqList_iff]

theorem Json.beqFields_iff : ∀ a b : List (String × Json), Json.beqFields a b = true ↔ a = b
  | [], b => by cases b <;> simp [Json.beqFields]
  | (ka, va) :: as, b => by
      cases b with
      | nil => simp [Json.beqFields]
      | cons b bs =>
          obtain ⟨kb, vb⟩ := b
          simp only [Json.beqFields, Bool.and_eq_true, List.cons.injEq, Prod.mk.injEq]
          rw [Json.beq_iff, Json.beqFields_iff]
          constructor
          · rintro ⟨⟨h1, h2⟩, h3⟩
            exact ⟨⟨by simpa using h1, h2⟩, h3⟩
          · rintro ⟨⟨h1, h2⟩, h3⟩
            exact ⟨⟨by simp [h1], h2⟩, h3⟩
end

instance : DecidableEq Json := fun a b =>
  decidable_of_iff (Json.beq a b = true) (Json.beq_iff a b)

/-- Escaping of a string body as done by `json.dumps` (quote and backslash;
payloads in this development are plain printable ASCII, for which these are
the only escapes `json.dumps` emits). -/
def jsonEscape (s : String) : String :=
  String.join (s.toList.map fun c =>
    if c = '"' then "\\\"" else if c = '\\' then "\\\\" else String.singleton c)

mutual
/-- Model of Python `json.dumps` with its default separators
(`", "` between items, `": "` after keys). -/
def dumps : Json → String
  | .null => "null"
  | .bool true => "true"
  | .bool false => "false"
  | .int n => toString n
  | .str s => "\"" ++ jsonEscape s ++ "\""
  | .arr xs => "[" ++ dumpsList xs ++ "]"
  | .obj fs => "\x7b" ++ dumpsFields fs ++ "\x7d"

def dumpsList : List Json → String
  | [] => ""
  | [x] => dumps x
  | x :: xs => dumps x ++ ", " ++ dumpsList xs

def dumpsFields : List (String × Json) → String
  | [] => ""
  | [(k, v)] => "\"" ++ jsonEscape k ++ "\": " ++ dumps v
  | (k, v) :: fs => "\"" ++ jsonEscape k ++ "\": " ++ dumps v ++ ", " ++ dumpsFields fs
end

mutual
/-- Model of Python `str()` applied to a JSON-shaped value (`None`/`True`/`False`
spellings, single-quoted strings inside containers, a bare string at top level). -/
def pyStr : Json → String
  | .str s => s
  | j => pyRepr j

/-- Model of Python `repr()` on JSON-shaped values. -/
def pyRepr : Json → String
  | .null => "None"
  | .bool true => "True"
  | .bool false => "False"
  | .int n => toString n
  | .str s => "'" ++ s ++ "'"
  | .arr xs => "[" ++ pyReprList xs ++ "]"
  | .obj fs => "\x7b" ++ pyReprFields fs ++ "\x7d"

def pyReprList : List Json → String
  | [] => ""
  | [x] => pyRepr x
  | x :: xs => pyRepr x ++ ", " ++ pyReprList xs

def pyReprFields : List (String × Json) → String
  | [] => ""
  | [(k, v)] => "'" ++ k ++ "': " ++ pyRepr v
  | (k, v) :: fs => "'" ++ k ++ "': " ++ pyRepr v ++ ", " ++ pyReprFields fs
end

/-- `len(json.dumps(item))`, the serialized-size measure used throughout
`FinalReporterAgent._chunk_data`. -/
def jsonSize (j : Json) : Nat := (dumps j).length

/-- `d.get(key, default)` on an insertion-ordered dict. -/
def objGetD (j : Json) (key : String) (dflt : Json) : Json :=
  match j with
  | .obj fs => ((fs.find? (fun p => p.1 = key)).map Prod.snd).getD dflt
  | _ => dflt

/-- Python truthiness of a JSON value (`bool(x)`). -/
def truthy : Json → Bool
  | .null => false
  | .bool b => b
  | .int n => n != 0
  | .str s => s != ""
  | .arr xs => !xs.isEmpty
  | .obj fs => !fs.isEmpty

/-! ## Counter merging

Every agent merges frequency tables the same way:
`combined[key] = combined.get(key, 0) + count`.  A Python dict keeps insertion
order — updating an existing key keeps its position, a new key is appended —
so the combined table is an insertion-ordered association list. -/

/-- A frequency table in insertion order. -/
abbrev Counter := List (String × Int)

/-- `c.get(k)`: the value stored at the first (hence unique) entry for `k`. -/
def Counter.lookup : Counter → String → Option Int
  | [], _ => none
  | (k₀, v₀) :: c, k => if k₀ = k then some v₀ else Counter.lookup c k

/-- `combined[k] = combined.get(k, 0) + v` on an insertion-ordered dict:
update in place when the key exists, append otherwise. -/
def Counter.add (c : Counter) (k : String) (v : Int) : Counter :=
  if c.any (fun p => p.1 = k) then
    c.map (fun p => if p.1 = k then (p.1, p.2 + v) else p)
  else
    c ++ [(k, v)]

/-- Fold one partial's entries into the accumulator (one `for key, count in
partial.items()` loop of the source). -/
def Counter.addAll (c : Counter) (p : List (String × Int)) : Counter :=
  p.foldl (fun acc kv => acc.add kv.1 kv.2) c

/-- The cross-partial merge loop shared by the agents: fold every partial's
entries into an initially empty dict. -/
def mergeCounters (ps : List (List (String × Int))) : Counter :=
  ps.foldl Counter.addAll []

/-- Whether a partial mentions key `k`. -/
def hasKey (p : List (String × Int)) (k : String) : Bool :=
  p.any (fun kv => kv.1 = k)

/-- Total contribution of one partial to key `k` (sum over duplicate entries;
a parsed JSON object has each key once, but the model does not rely on that). -/
def keySum (p : List (String × Int)) (k : String) : Int :=
  ((p.filter (fun kv => kv.1 = k)).map Prod.snd).sum

theorem Counter.map_update_of_not_mem (tl : Counter) (k : String) (v : Int)
    (h : tl.any (fun p => p.1 = k) = false) :
    tl.map (fun p => if p.1 = k then (p.1, p.2 + v) else p) = tl := by
  induction tl with
  | nil => rfl
  | cons hd tl ih =>
      simp only [List.any_cons, Bool.or_eq_false_iff, decide_eq_false_iff_not] at h
      simp [h.1, ih h.2]

theorem Counter.lookup_add_self (c : Counter) (k : String) (v : Int) :
    (c.add k v).lookup k = some (((c.lookup k).getD 0) + v) := by
  induction c with
  | nil => simp [Counter.add, Counter.lookup]
  | cons hd tl ih =>
      obtain ⟨k₀, v₀⟩ := hd
      by_cases hhd : k₀ = k
      · simp [Counter.add, Counter.lookup, hhd]
      · have hadd : List.any ((k₀, v₀) :: tl) (fun p => p.1 = k)
            = tl.any (fun p => p.1 = k) := by simp [hhd]
        by_cases htl : tl.any (fun p => p.1 = k)
        · have h1 : Counter.add ((k₀, v₀) :: tl) k v
              = (k₀, v₀) :: tl.map (fun p => if p.1 = k then (p.1, p.2 + v) else p) := by
            simp [Counter.add, hadd, htl, hhd]
          have h2 : Counter.add tl k v
              = tl.map (fun p => if p.1 = k then (p.1, p.2 + v) else p) := by
            simp [Counter.add, htl]
          rw [h1]
          simpa [Counter.lookup, hhd, ← h2] using ih
        · have h1 : Counter.add ((k₀, v₀) :: tl) k v = (k₀, v₀) :: (tl ++ [(k, v)]) := by
            simp [Counter.add, hadd, htl]
          have h2 : Counter.add tl k v = tl ++ [(k, v)] := by
            simp [Counter.add, htl]
          rw [h1]
          simpa [Counter.lookup, hhd, ← h2] using ih

theorem Counter.lookup_add_other (c : Counter) (k k' : String) (v : Int) (hk : k' ≠ k) :
    (c.add k v).lookup k' = c.lookup k' := by
  have hkk : ¬ (k = k') := fun h => hk h.symm
  induction c with
  | nil => simp [Counter.add, Counter.lookup, hkk]
  | cons hd tl ih =>
      obtain ⟨k₀, v₀⟩ := hd
      by_cases hany : List.any ((k₀, v₀) :: tl) (fun p => p.1 = k)
      · have hc : Counter.add ((k₀, v₀) :: tl) k v
            = (if k₀ = k then (k₀, v₀ + v) else (k₀, v₀))
              :: tl.map (fun p => if p.1 = k then (p.1, p.2 + v) else p) := by
          simp only [Counter.add, hany, if_true, List.map_cons]
        rw [hc]
        by_cases hhd : k₀ = k
        · have hne : ¬ (k₀ = k') := by rw [hhd]; exact hkk
          rw [if_pos hhd]
          show (if k₀ = k' then some (v₀ + v)
              else Counter.lookup (tl.map (fun p => if p.1 = k then (p.1, p.2 + v) else p)) k')
            = (if k₀ = k' then some v₀ else Counter.lookup tl k')
          rw [if_neg hne, if_neg hne]
          by_cases htl : tl.any (fun p => p.1 = k)
          · have h2 : Counter.add tl k v
                = tl.map (fun p => if p.1 = k then (p.1, p.2 + v) else p) := by
              simp [Counter.add, htl]
            rw [← h2]; exact ih
          · rw [Counter.map_update_of_not_mem tl k v (eq_false_of_ne_true htl)]
        · rw [if_neg hhd]
          show (if k₀ = k' then some v₀
              else Counter.lookup (tl.map (fun p => if p.1 = k then (p.1, p.2 + v) else p)) k')
            = (if k₀ = k' then some v₀ else Counter.lookup tl k')
          by_cases hk' : k₀ = k'
          · rw [if_pos hk', if_pos hk']
          · rw [if_neg hk', if_neg hk']
            have htl : tl.any (fun p => p.1 = k) := by
              simpa [hhd] using hany
            have h2 : Counter.add tl k v
                = tl.map (fun p => if p.1 = k then (p.1, p.2 + v) else p) := by
              simp [Counter.add, htl]
            rw [← h2]; exact ih
      · have hc : Counter.add ((k₀, v₀) :: tl) k v = (k₀, v₀) :: (tl ++ [(k, v)]) := by
          simp [Counter.add, hany]
        have htl : tl.any (fun p => p.1 = k) = false := by
          have := hany
          simp only [List.any_cons, Bool.or_eq_true, not_or] at this
          exact eq_false_of_ne_true this.2
        have h2 : Counter.add tl k v = tl ++ [(k, v)] := by
          simp [Counter.add, htl]
        rw [hc]
        show (if k₀ = k' then some v₀ else Counter.lookup (tl ++ [(k, v)]) k')
          = (if k₀ = k' then some v₀ else Counter.lookup tl k')
        by_cases hk' : k₀ = k'
        · rw [if_pos hk', if_pos hk']
        · rw [if_neg hk', if_neg hk', ← h2]; exact ih

theorem keySum_cons (k₁ : String) (v₁ : Int) (rest : List (String × Int)) (k : String) :
    keySum ((k₁, v₁) :: rest) k
      = if k₁ = k then v₁ + keySum rest k else keySum rest k := by
  by_cases h : k₁ = k <;> simp [keySum, h]

theorem keySum_eq_zero (p : List (String × Int)) (k : String) (h : hasKey p k = false) :
    keySum p k = 0 := by
  induction p with
  | nil => rfl
  | cons hd tl ih =>
      obtain ⟨k₁, v₁⟩ := hd
      simp only [hasKey, List.any_cons, Bool.or_eq_false_iff, decide_eq_false_iff_not] at h
      rw [keySum_cons, if_neg h.1]
      exact ih (by simpa [hasKey] using h.2)

theorem hasKey_cons (k₁ : String) (v₁ : Int) (rest : List (String × Int)) (k : String) :
    hasKey ((k₁, v₁) :: rest) k = (decide (k₁ = k) || hasKey rest k) := by
  simp [hasKey]

theorem Counter.lookup_addAll (c : Counter) (p : List (String × Int)) (k : String) :
    (Counter.addAll c p).lookup k
      = if hasKey p k then some (((c.lookup k).getD 0) + keySum p k) else c.lookup k := by
  induction p generalizing c with
  | nil => simp [Counter.addAll, hasKey]
  | cons hd rest ih =>
      obtain ⟨k₁, v₁⟩ := hd
      have hstep : Counter.addAll c ((k₁, v₁) :: rest) = Counter.addAll (c.add k₁ v₁) rest := rfl
      rw [hstep, ih]
      by_cases hhd : k₁ = k
      · subst hhd
        by_cases hrest : hasKey rest k₁
        · simp [hasKey_cons, keySum_cons, hrest, Counter.lookup_add_self, add_assoc]
        · simp [hasKey_cons, keySum_cons, hrest, Counter.lookup_add_self,
            keySum_eq_zero rest k₁ (eq_false_of_ne_true hrest)]
      · have hlook : (c.add k₁ v₁).lookup k = c.lookup k :=
          Counter.lookup_add_other c k₁ k v₁ (fun h => hhd h.symm)
        simp [hasKey_cons, keySum_cons, hhd, hlook]

theorem lookup_mergeCounters_from (c : Counter) (ps : List (List (String × Int)))
    (k : String) :
    (ps.foldl Counter.addAll c).lookup k
      = if ps.any (fun p => hasKey p k)
        then some (((c.lookup k).getD 0) + (ps.map (fun p => keySum p k)).sum)
        else c.lookup k := by
  induction ps generalizing c with
  | nil => simp
  | cons p rest ih =>
      rw [List.foldl_cons, ih, Counter.lookup_addAll]
      by_cases hp : hasKey p k
      · by_cases hrest : rest.any (fun p => hasKey p k)
        · simp [hp, hrest, add_assoc]
        · have hz : (rest.map (fun p => keySum p k)).sum = 0 := by
            have hall : ∀ x ∈ rest.map (fun p => keySum p k), x = 0 := by
              intro x hx
              obtain ⟨q, hq, rfl⟩ := List.mem_map.1 hx
              refine keySum_eq_zero q k (eq_false_of_ne_true ?_)
              intro hkey
              exact hrest (List.any_eq_true.2 ⟨q, hq, hkey⟩)
            exact List.sum_eq_zero hall
          simp [hp, hrest, hz]
      · have hz : keySum p k = 0 := keySum_eq_zero p k (eq_false_of_ne_true hp)
        simp [hp, hz]

/-- Lookup characterization of the shared counter-merge loop: a key is present
iff some partial mentions it, and its merged value is the sum of all partial
contributions. -/
theorem lookup_mergeCounters (ps : List (List (String × Int))) (k : String) :
    (mergeCounters ps).lookup k
      = if ps.any (fun p => hasKey p k)
        then some ((ps.map (fun p => keySum p k)).sum)
        else none := by
  have := lookup_mergeCounters_from [] ps k
  simpa [mergeCounters, Counter.lookup] using this

/-- Reordering the partials does not change any merged count (Python dict
equality ignores insertion order, so this is dict equality of the merges). -/
theorem lookup_mergeCounters_perm (ps ps' : List (List (String × Int)))
    (h : ps.Perm ps') (k : String) :
    (mergeCounters ps).lookup k = (mergeCounters ps').lookup k := by
  rw [lookup_mergeCounters, lookup_mergeCounters]
  have hany : ps.any (fun p => hasKey p k) = ps'.any (fun p => hasKey p k) := by
    rcases hb : ps'.any (fun p => hasKey p k) with _ | _
    · refine eq_false_of_ne_true ?_
      intro ha
      obtain ⟨q, hq, hkey⟩ := List.any_eq_true.1 ha
      have : ps'.any (fun p => hasKey p k) = true :=
        List.any_eq_true.2 ⟨q, h.mem_iff.1 hq, hkey⟩
      rw [this] at hb; cases hb
    · obtain ⟨q, hq, hkey⟩ := List.any_eq_true.1 hb
      exact List.any_eq_true.2 ⟨q, h.mem_iff.2 hq, hkey⟩
  have hsum : (ps.map (fun p => keySum p k)).sum = (ps'.map (fun p => keySum p k)).sum :=
    (h.map (fun p => keySum p k)).sum_eq
  rw [hany, hsum]

/-! ## First-seen deduplication

`AIImpactAnalyzerAgent` deduplicates its merged lists with
`list(dict.fromkeys(xs))`: keys are inserted left to right, a repeated key
keeps its first position, so the result is `xs` with every later duplicate
removed. -/

/-- Model of `list(dict.fromkeys(xs))`: insert the elements left to right,
skipping any already present. -/
def pyDictFromKeys {α : Type} [DecidableEq α] (l : List α) : List α :=
  go [] l
where
  go (seen : List α) : List α → List α
    | [] => []
    | x :: xs => if x ∈ seen then go seen xs else x :: go (x :: seen) xs

/-- The spec's set-like deduplication rule, written independently: keep each
first appearance, dropping every later duplicate. -/
def dedupFirstSeen {α : Type} [DecidableEq α] : List α → List α
  | [] => []
  | x :: xs => x :: dedupFirstSeen (xs.filter (fun y => y ≠ x))
termination_by l => l.length
decreasing_by
  exact Nat.lt_succ_of_le (List.length_filter_le _ _)

theorem mem_dedupFirstSeen {α : Type} [DecidableEq α] (l : List α) (x : α) :
    x ∈ dedupFirstSeen l ↔ x ∈ l := by
  induction l using dedupFirstSeen.induct with
  | case1 => simp [dedupFirstSeen]
  | case2 y ys ih =>
      rw [dedupFirstSeen]
      by_cases hxy : x = y
      · simp [hxy]
      · simp only [List.mem_cons, hxy, false_or]
        rw [ih]
        simp only [List.mem_filter, ne_eq, decide_not, Bool.not_eq_false', decide_eq_true_eq]
        constructor
        · exact fun h => h.1
        · exact fun h => ⟨h, by simpa using hxy⟩

theorem nodup_dedupFirstSeen {α : Type} [DecidableEq α] (l : List α) :
    (dedupFirstSeen l).Nodup := by
  induction l using dedupFirstSeen.induct with
  | case1 => simp [dedupFirstSeen]
  | case2 y ys ih =>
      rw [dedupFirstSeen]
      refine List.nodup_cons.2 ⟨?_, ih⟩
      intro hmem
      have := (mem_dedupFirstSeen _ _).1 hmem
      simp [List.mem_filter] at this

theorem sublist_dedupFirstSeen {α : Type} [DecidableEq α] (l : List α) :
    (dedupFirstSeen l).Sublist l := by
  induction l using dedupFirstSeen.induct with
  | case1 => simp [dedupFirstSeen]
  | case2 y ys ih =>
      rw [dedupFirstSeen]
      exact (ih.trans (List.filter_sublist ys)).cons₂ y

theorem pyDictFromKeys_go_eq_dedup {α : Type} [DecidableEq α] :
    ∀ (l seen : List α),
      pyDictFromKeys.go seen l = dedupFirstSeen (l.filter (fun y => y ∉ seen)) := by
  intro l
  induction l with
  | nil => intro seen; simp [pyDictFromKeys.go, dedupFirstSeen]
  | cons y ys ih =>
      intro seen
      by_cases hy : y ∈ seen
      · have hstep : (y :: ys).filter (fun z => z ∉ seen) = ys.filter (fun z => z ∉ seen) := by
          simp [List.filter_cons, hy]
        rw [hstep, pyDictFromKeys.go, if_pos hy]
        exact ih seen
      · have hstep : (y :: ys).filter (fun z => z ∉ seen)
            = y :: ys.filter (fun z => z ∉ seen) := by
          simp [List.filter_cons, hy]
        rw [hstep, pyDictFromKeys.go, if_neg hy, dedupFirstSeen, ih (y :: seen)]
        have hfilter : (ys.filter (fun z => z ∉ seen)).filter (fun z => z ≠ y)
            = ys.filter (fun z => z ∉ y :: seen) := by
          rw [List.filter_filter]
          apply List.filter_congr
          intro z _
          by_cases hzy : z = y
          · simp [hzy, hy]
          · by_cases hzs : z ∈ seen <;> simp [hzy, hzs]
        rw [hfilter]

/-- `dict.fromkeys` implements exactly the spec's first-seen deduplication rule. -/
theorem pyDictFromKeys_eq_dedupFirstSeen {α : Type} [DecidableEq α] (l : List α) :
    pyDictFromKeys l = dedupFirstSeen l := by
  rw [pyDictFromKeys, pyDictFromKeys_go_eq_dedup]
  congr 1
  refine List.filter_eq_self.2 ?_
  intro a _
  simp

theorem mem_pyDictFromKeys {α : Type} [DecidableEq α] (l : List α) (x : α) :
    x ∈ pyDictFromKeys l ↔ x ∈ l := by
  rw [pyDictFromKeys_eq_dedupFirstSeen]
  exact mem_dedupFirstSeen l x

theorem nodup_pyDictFromKeys {α : Type} [DecidableEq α] (l : List α) :
    (pyDictFromKeys l).Nodup := by
  rw [pyDictFromKeys_eq_dedupFirstSeen]
  exact nodup_dedupFirstSeen l

theorem sublist_pyDictFromKeys {α : Type} [DecidableEq α] (l : List α) :
    (pyDictFromKeys l).Sublist l := by
  rw [pyDictFromKeys_eq_dedupFirstSeen]
  exact sublist_dedupFirstSeen l

/-! ## Stable descending sort

`dict(sorted(d.items(), key=lambda x: x[1], reverse=True))`:  Python's sort is
stable, and `reverse=True` reverses the comparison while keeping equal keys in
their original (insertion) order.  Modelled as an insertion sort that inserts
each element before the first strictly smaller count, i.e. after every
earlier element with a greater-or-equal count. -/

/-- Insert an element into a descending-sorted list, before the first entry
with a strictly smaller count (so equal counts keep their original order,
because the element being inserted came earlier in the input). -/
def insertDesc (x : String × Int) : List (String × Int) → List (String × Int)
  | [] => [x]
  | y :: ys => if y.2 ≤ x.2 then x :: y :: ys else y :: insertDesc x ys

/-- Stable sort by count, descending. -/
def sortDesc : List (String × Int) → List (String × Int)
  | [] => []
  | x :: xs => insertDesc x (sortDesc xs)

theorem perm_insertDesc (x : String × Int) (l : List (String × Int)) :
    (insertDesc x l).Perm (x :: l) := by
  induction l with
  | nil => exact List.Perm.refl _
  | cons y ys ih =>
      rw [insertDesc]
      by_cases h : y.2 ≤ x.2
      · rw [if_pos h]
      · rw [if_neg h]
        exact (ih.cons y).trans (List.Perm.swap x y ys)

theorem perm_sortDesc (l : List (String × Int)) : (sortDesc l).Perm l := by
  induction l with
  | nil => exact List.Perm.refl _
  | cons x xs ih =>
      rw [sortDesc]
      exact (perm_insertDesc x (sortDesc xs)).trans (ih.cons x)

theorem pairwise_insertDesc (x : String × Int) (l : List (String × Int))
    (h : l.Pairwise (fun a b => b.2 ≤ a.2)) :
    (insertDesc x l).Pairwise (fun a b => b.2 ≤ a.2) := by
  induction l with
  | nil => simp [insertDesc]
  | cons y ys ih =>
      rw [insertDesc]
      rcases List.pairwise_cons.1 h with ⟨hy, hys⟩
      by_cases hle : y.2 ≤ x.2
      · rw [if_pos hle]
        refine List.pairwise_cons.2 ⟨?_, h⟩
        intro z hz
        rcases List.mem_cons.1 hz with rfl | hz
        · exact hle
        · exact (hy z hz).trans hle
      · rw [if_neg hle]
        refine List.pairwise_cons.2 ⟨?_, ih hys⟩
        intro z hz
        rcases List.mem_cons.1 ((perm_insertDesc x ys).mem_iff.1 hz) with rfl | hz
        · exact le_of_not_le hle
        · exact hy z hz

/-- The sorted counter is in weakly descending count order. -/
theorem pairwise_sortDesc (l : List (String × Int)) :
    (sortDesc l).Pairwise (fun a b => b.2 ≤ a.2) := by
  induction l with
  | nil => simp [sortDesc]
  | cons x xs ih => exact pairwise_insertDesc x (sortDesc xs) ih

/-! ## Batching

Both analyzers cut the job list into contiguous slices: `TechAnalyzerAgent`
with `job_data[i:i+20]` for `i in range(0, len, 20)`, `AIImpactAnalyzerAgent`
with `job_data[i*10 : min((i+1)*10, len)]` for `i in range(ceil(len/10))` —
the same contiguous slices. -/

/-- The contiguous slices `l[i:i+size]`, `i = 0, size, 2*size, …` (the source
only calls this with the positive literals 20 and 10, for which the
length-of-input fuel never runs out: each step consumes at least one
element). -/
def batches {α : Type} (size : Nat) (l : List α) : List (List α) :=
  go l.length l
where
  go : Nat → List α → List (List α)
    | _, [] => []
    | 0, _ :: _ => []
    | fuel + 1, x :: xs =>
        if size = 0 then []
        else (x :: xs).take size :: go fuel ((x :: xs).drop size)

/-- What the stage observes of one worker call (one external-service request
plus the `json.loads` of its reply). -/
inductive LLMOutcome where
  | failure (msg : String)
  | badJson (raw : String)
  | parsed (j : Json)

def LLMOutcome.isParsed : LLMOutcome → Bool
  | .parsed _ => true
  | _ => false

def LLMOutcome.isBadJson : LLMOutcome → Bool
  | .badJson _ => true
  | _ => false

/-! ## TechAnalyzerAgent (`tech_analyzer_agent.py`) -/

/-- `desc[:500] + "..." if len(desc) > 500 else desc` applied to
`job.get("description", "")` (descriptions are strings in every modelled run;
a non-string is kept unchanged). -/
def truncatedDescTech (job : Json) : Json :=
  match objGetD job "description" (.str "") with
  | .str s => .str (if s.length > 500 then s.take 500 ++ "..." else s)
  | v => v

/-- The `simplified_job` dict built for each job of a batch. -/
def simplifyJobTech (job : Json) : Json :=
  .obj [("title", objGetD job "title" (.str "Unknown Title")),
        ("company", objGetD job "company_name" (.str "Unknown Company")),
        ("description", truncatedDescTech job)]

/-- The tech analyzer's batch loop: each batch is simplified and sent to the
worker; a `json.JSONDecodeError` is logged and the loop `continue`s (the
batch's analysis is skipped); any other exception propagates out of the
stage. Returns `all_analyses`. -/
def techAnalysesLoop (worker : List Json → LLMOutcome) :
    List (List Json) → Except String (List Json)
  | [] => .ok []
  | b :: rest =>
      match worker (b.map simplifyJobTech) with
      | .failure msg => .error msg
      | .badJson _ => techAnalysesLoop worker rest
      | .parsed j => (techAnalysesLoop worker rest).map (fun l => j :: l)

/-- `all_analyses` for a job list: the batch loop over the 20-item slices. -/
def techAnalyses (worker : List Json → LLMOutcome) (job_data : List Json) :
    Except String (List Json) :=
  techAnalysesLoop worker (batches 20 job_data)

/-- `int + count` in Python: succeeds for integers (and bools, which are
ints), raises `TypeError` otherwise.  The tech analyzer adds raw counts
without coercion. -/
def toIntStrict : Json → Except String Int
  | .int n => .ok n
  | .bool b => .ok (if b then 1 else 0)
  | _ => .error "TypeError: unsupported operand for +"

/-- One partial's entries folded into the running dict with the tech
analyzer's uncoerced addition (lines 74-76 / 79-81 / 87-89). -/
def addStrict : Counter → List (String × Json) → Except String Counter
  | acc, [] => .ok acc
  | acc, (k, v) :: rest =>
      match toIntStrict v with
      | .ok n => addStrict (acc.add k n) rest
      | .error e => .error e

/-- The tech analyzer's counter-category merge over the partials' entry lists:
raises on the first non-numeric count. -/
def techCounterReduce : List (List (String × Json)) → Except String Counter :=
  go []
where
  go (acc : Counter) : List (List (String × Json)) → Except String Counter
    | [] => .ok acc
    | p :: rest =>
        match addStrict acc p with
        | .ok acc2 => go acc2 rest
        | .error e => .error e

/-- `analysis.get("emerging_trends", [])` flattened over all partials — the
elements poured into the `emerging_trends` set (trend values are lists in
every modelled run). -/
def trendsOfAnalyses (analyses : List Json) : List Json :=
  (analyses.map (fun a =>
    match objGetD a "emerging_trends" (.arr []) with
    | .arr xs => xs
    | _ => [])).flatten

/-- What `list(combined_analysis["emerging_trends"])` guarantees about its
output: the set holds exactly the poured-in elements, each once, but a CPython
`set` of strings iterates in a hash-dependent, unspecified order, so the
embedding of the set-based merge is this relation on possible outputs rather
than a function. -/
def techTrendsAdmissible (analyses : List Json) (out : List Json) : Prop :=
  out.Nodup ∧ (∀ x ∈ out, x ∈ trendsOfAnalyses analyses)
    ∧ (∀ x ∈ trendsOfAnalyses analyses, x ∈ out)

instance (analyses : List Json) (out : List Json) :
    Decidable (techTrendsAdmissible analyses out) := by
  unfold techTrendsAdmissible
  infer_instance

/-! ## AIImpactAnalyzerAgent (`ai_impact_analyzer.py`) -/

/-- `job.get("description", "")[:300]` (string in every modelled run). -/
def truncatedDescImpact (job : Json) : Json :=
  match objGetD job "description" (.str "") with
  | .str s => .str (s.take 300)
  | v => v

/-- The `simplified_job` dict of the AI-impact batch loop. -/
def simplifyJobImpact (job : Json) : Json :=
  .obj [("title", objGetD job "title" (.str "")),
        ("company_name", objGetD job "company_name" (.str "")),
        ("location", objGetD job "location" (.str "")),
        ("description", truncatedDescImpact job)]

/-- The AI-impact batch loop.  Unlike the tech analyzer, its
`try ... except Exception as e: logger.error(...); raise` re-raises on ANY
failure of a batch, including a JSON parse error. -/
def aiAnalysesLoop (worker : List Json → LLMOutcome) :
    List (List Json) → Except String (List Json)
  | [] => .ok []
  | b :: rest =>
      match worker (b.map simplifyJobImpact) with
      | .failure msg => .error msg
      | .badJson raw => .error ("JSONDecodeError: " ++ raw)
      | .parsed j => (aiAnalysesLoop worker rest).map (fun l => j :: l)

/-- `impact.get(key, [])` (list in every modelled run). -/
def getListD (j : Json) (key : String) : List Json :=
  match objGetD j key (.arr []) with
  | .arr xs => xs
  | _ => []

/-- One output category of `analyze_ai_impact`: the partials' lists are
concatenated with `extend` and then deduplicated with
`list(dict.fromkeys(...))`. -/
def combineImpactKey (impacts : List Json) (key : String) : List Json :=
  pyDictFromKeys ((impacts.map (fun i => getListD i key)).flatten)

/-- `combined_impact` with its four fixed keys. -/
def combineImpacts (impacts : List Json) : Json :=
  .obj [("ai_role_analysis", .arr (combineImpactKey impacts "ai_role_analysis")),
        ("required_ai_skills", .arr (combineImpactKey impacts "required_ai_skills")),
        ("impact_on_traditional_roles", .arr (combineImpactKey impacts "impact_on_traditional_roles")),
        ("future_adaptations", .arr (combineImpactKey impacts "future_adaptations"))]

/-- `AIImpactAnalyzerAgent.analyze_ai_impact` over the 10-item slices (the
tech-analysis and market-report summaries only shape the prompt and are
folded into the worker oracle). -/
def analyze_ai_impact (worker : List Json → LLMOutcome) (job_data : List Json) :
    Except String Json :=
  (aiAnalysesLoop worker (batches 10 job_data)).map combineImpacts

/-! ## MarketReporterAgent (`market_reporter.py`) -/

/-- Decimal value of a digit string. -/
def digitsToNat (ds : List Char) : Nat :=
  ds.foldl (fun a c => a * 10 + (c.toNat - 48)) 0

/-- Model of Python `int(s)` on a string: strip surrounding whitespace, allow
one sign, then require a nonempty run of decimal digits; `None` models the
`ValueError` raised otherwise. -/
def pyParseInt (s : String) : Option Int :=
  let cs := s.toList.dropWhile (fun c => c.isWhitespace)
  let cs := (cs.reverse.dropWhile (fun c => c.isWhitespace)).reverse
  match cs with
  | '-' :: ds =>
      if !ds.isEmpty && ds.all (fun c => c.isDigit) then some (-(digitsToNat ds : Int))
      else none
  | '+' :: ds =>
      if !ds.isEmpty && ds.all (fun c => c.isDigit) then some (digitsToNat ds : Int)
      else none
  | ds =>
      if !ds.isEmpty && ds.all (fun c => c.isDigit) then some (digitsToNat ds : Int)
      else none

/-- `ensure_int`: `int(val)` if possible, else 0.  `int()` accepts ints, bools
and numeric strings and raises `ValueError`/`TypeError` — coerced to 0 — on
everything else. -/
def ensureInt : Json → Int
  | .int n => n
  | .bool b => if b then 1 else 0
  | .str s => (pyParseInt s).getD 0
  | _ => 0

/-- The market reporter's counter-category merge: every count goes through
`ensure_int`, so the merge is total. -/
def marketCounterReduce (ps : List (List (String × Json))) : Counter :=
  ps.foldl (fun acc p => p.foldl (fun a kv => a.add kv.1 (ensureInt kv.2)) acc) []

theorem marketCounterReduce_eq_mergeCounters (ps : List (List (String × Json))) :
    marketCounterReduce ps
      = mergeCounters (ps.map (fun p => p.map (fun kv => (kv.1, ensureInt kv.2)))) := by
  rw [marketCounterReduce, mergeCounters, List.foldl_map]
  congr 1
  funext acc p
  rw [Counter.addAll, List.foldl_map]

/-! ## FinalReporterAgent._chunk_data (`final_reporter.py` lines 46-122)

The source fixes `max_size = 50000`; the model takes the budget as the
parameter `m`.  Serialized sizes are `len(json.dumps(·))` of the individual
items/values, exactly the accounting the source's `current_size` maintains.
The model emits chunks in the same order as the source's `chunks.append`
calls (an oversized item's chunk is appended while the running chunk keeps
accumulating). -/

/-- The `summary_item` built for an oversized list element: a dict keeps its
keys and truncates its string values to `max_size // 2`; anything else
becomes the single string `str(item)[:max_size]`. -/
def shrinkItem (m : Nat) : Json → Json
  | .obj fs => .obj (fs.map (fun kv =>
      match kv.2 with
      | .str s => (kv.1, Json.str (s.take (m / 2)))
      | v => (kv.1, v)))
  | j => .str ((pyStr j).take m)

/-- The list-input loop of `_chunk_data`, carrying the running chunk and its
running size (`current_chunk`, `current_size`). -/
def chunkListGo (m : Nat) : List Json → List Json → Nat → List (List Json)
  | [], cur, _ => if cur = [] then [] else [cur]
  | it :: rest, cur, curSize =>
      let sz := jsonSize it
      if m < sz then
        [shrinkItem m it] :: chunkListGo m rest cur curSize
      else if m < curSize + sz then
        (if cur = [] then [] else [cur]) ++ chunkListGo m rest [it] sz
      else
        chunkListGo m rest (cur ++ [it]) (curSize + sz)

/-- `_chunk_data` on list input. -/
def chunkList (m : Nat) (items : List Json) : List (List Json) :=
  chunkListGo m items [] 0

/-- The slices `value[i:i+chunk_size]` for `i in range(0, len(value),
chunk_size)`, each wrapped as the one-pair dict `\x7bkey: sub_list\x7d`; the
argument is `chunk_size - 1` so that the step is positive by construction
(the caller checks `chunk_size != 0`), and the length-of-input fuel never
runs out: each step consumes at least one element. -/
def sliceChunks (cp : Nat) (k : String) (xs : List Json) :
    List (List (String × Json)) :=
  go xs.length xs
where
  go : Nat → List Json → List (List (String × Json))
    | _, [] => []
    | 0, _ :: _ => []
    | fuel + 1, x :: xs =>
        [(k, Json.arr ((x :: xs).take (cp + 1)))]
          :: go fuel ((x :: xs).drop (cp + 1))

/-- The oversized-value branch of the dict-input loop: an oversized list is
subdivided with `chunk_size = len(value) // ((value_size // max_size) + 1)`
(Python's `range` raises `ValueError` when that is 0); an oversized string is
hard-truncated to `max_size`; any other value becomes
`str(value)[:max_size]`. -/
def oversizedSplit (m : Nat) (k : String) (v : Json) :
    Except String (List (List (String × Json))) :=
  match v with
  | .arr xs =>
      let csize := xs.length / (jsonSize (.arr xs) / m + 1)
      if csize = 0 then .error "ValueError: range() arg 3 must not be zero"
      else .ok (sliceChunks (csize - 1) k xs)
  | .str s => .ok [[(k, .str (s.take m))]]
  | v => .ok [[(k, .str ((pyStr v).take m))]]

/-- The dict-input loop of `_chunk_data` over the `(key, value)` items. -/
def chunkDictGo (m : Nat) :
    List (String × Json) → List (String × Json) → Nat →
      Except String (List (List (String × Json)))
  | [], cur, _ => .ok (if cur = [] then [] else [cur])
  | (k, v) :: rest, cur, curSize =>
      let sz := jsonSize v
      if m < sz then
        match oversizedSplit m k v with
        | .error e => .error e
        | .ok os => (chunkDictGo m rest cur curSize).map (fun cs => os ++ cs)
      else if m < curSize + sz then
        (chunkDictGo m rest [(k, v)] sz).map
          (fun cs => (if cur = [] then [] else [cur]) ++ cs)
      else
        chunkDictGo m rest (cur ++ [(k, v)]) (curSize + sz)

/-- `_chunk_data` on dict input. -/
def chunkDict (m : Nat) (pairs : List (String × Json)) :
    Except String (List (List (String × Json))) :=
  chunkDictGo m pairs [] 0

/-- Sum of the items' serialized sizes — the size the source accounts a list
chunk with. -/
def listChunkSize (c : List Json) : Nat := (c.map jsonSize).sum

/-- Sum of the values' serialized sizes — the size the source accounts a dict
chunk with. -/
def dictChunkSize (c : List (String × Json)) : Nat :=
  (c.map (fun kv => jsonSize kv.2)).sum

theorem except_map_ok {ε α β : Type} (f : α → β) (x : Except ε α) (b : β) :
    x.map f = .ok b ↔ ∃ a, x = .ok a ∧ f a = b := by
  cases x <;> simp [Except.map]

theorem chunkListGo_sizes (m : Nat) :
    ∀ (items cur : List Json) (curSize : Nat),
      curSize = listChunkSize cur →
      listChunkSize cur ≤ m →
      ∀ c ∈ chunkListGo m items cur curSize,
        (∃ it, m < jsonSize it ∧ c = [shrinkItem m it]) ∨ listChunkSize c ≤ m := by
  intro items
  induction items with
  | nil =>
      intro cur curSize _ hcur c hc
      rw [chunkListGo] at hc
      by_cases h : cur = []
      · rw [if_pos h] at hc; cases hc
      · rw [if_neg h] at hc
        rcases List.mem_singleton.1 hc with rfl
        exact Or.inr hcur
  | cons it rest ih =>
      intro cur curSize hacc hcur c hc
      rw [chunkListGo] at hc
      by_cases hsz : m < jsonSize it
      · rw [if_pos hsz] at hc
        rcases List.mem_cons.1 hc with rfl | hc
        · exact Or.inl ⟨it, hsz, rfl⟩
        · exact ih cur curSize hacc hcur c hc
      · rw [if_neg hsz] at hc
        by_cases hclose : m < curSize + jsonSize it
        · rw [if_pos hclose] at hc
          rcases List.mem_append.1 hc with hc | hc
          · by_cases hcureq : cur = []
            · rw [if_pos hcureq] at hc; cases hc
            · rw [if_neg hcureq] at hc
              rcases List.mem_singleton.1 hc with rfl
              exact Or.inr hcur
          · refine ih [it] (jsonSize it) (by simp [listChunkSize]) ?_ c hc
            simpa [listChunkSize] using le_of_not_lt hsz
        · rw [if_neg hclose] at hc
          refine ih (cur ++ [it]) (curSize + jsonSize it) ?_ ?_ c hc
          · simp [listChunkSize, hacc]
          · have : curSize + jsonSize it ≤ m := le_of_not_lt hclose
            have h2 : listChunkSize (cur ++ [it]) = curSize + jsonSize it := by
              simp [listChunkSize, hacc]
            omega

/-- Chunk-size invariant for list input: every produced chunk either is the
singleton holding a (truncated) oversized item, or its items' total
serialized size fits the budget. -/
theorem chunkList_sizes (m : Nat) (items : List Json) :
    ∀ c ∈ chunkList m items,
      (∃ it, m < jsonSize it ∧ c = [shrinkItem m it]) ∨ listChunkSize c ≤ m := by
  intro c hc
  exact chunkListGo_sizes m items [] 0 (by simp [listChunkSize])
    (by simp [listChunkSize]) c hc

theorem chunkDictGo_sizes (m : Nat) :
    ∀ (pairs cur : List (String × Json)) (curSize : Nat)
      (cs : List (List (String × Json))),
      curSize = dictChunkSize cur →
      dictChunkSize cur ≤ m →
      chunkDictGo m pairs cur curSize = .ok cs →
      ∀ c ∈ cs,
        (∃ k v, m < jsonSize v ∧ ∃ os, oversizedSplit m k v = .ok os ∧ c ∈ os)
          ∨ dictChunkSize c ≤ m := by
  intro pairs
  induction pairs with
  | nil =>
      intro cur curSize cs _ hcur hok c hc
      rw [chunkDictGo] at hok
      injection hok with hok
      subst hok
      by_cases h : cur = []
      · rw [if_pos h] at hc; cases hc
      · rw [if_neg h] at hc
        rcases List.mem_singleton.1 hc with rfl
        exact Or.inr hcur
  | cons pair rest ih =>
      obtain ⟨k, v⟩ := pair
      intro cur curSize cs hacc hcur hok c hc
      rw [chunkDictGo] at hok
      by_cases hsz : m < jsonSize v
      · rw [if_pos hsz] at hok
        cases hsplit : oversizedSplit m k v with
        | error e => rw [hsplit] at hok; cases hok
        | ok os =>
            rw [hsplit] at hok
            obtain ⟨cs2, hcs2, rfl⟩ := (except_map_ok _ _ _).1 hok
            rcases List.mem_append.1 hc with hc | hc
            · exact Or.inl ⟨k, v, hsz, os, hsplit, hc⟩
            · exact ih cur curSize cs2 hacc hcur hcs2 c hc
      · rw [if_neg hsz] at hok
        by_cases hclose : m < curSize + jsonSize v
        · rw [if_pos hclose] at hok
          obtain ⟨cs2, hcs2, rfl⟩ := (except_map_ok _ _ _).1 hok
          rcases List.mem_append.1 hc with hc | hc
          · by_cases hcureq : cur = []
            · rw [if_pos hcureq] at hc; cases hc
            · rw [if_neg hcureq] at hc
              rcases List.mem_singleton.1 hc with rfl
              exact Or.inr hcur
          · refine ih [(k, v)] (jsonSize v) cs2 (by simp [dictChunkSize]) ?_ hcs2 c hc
            simpa [dictChunkSize] using le_of_not_lt hsz
        · rw [if_neg hclose] at hok
          refine ih (cur ++ [(k, v)]) (curSize + jsonSize v) cs ?_ ?_ hok c hc
          · simp [dictChunkSize, hacc]
          · have : curSize + jsonSize v ≤ m := le_of_not_lt hclose
            have h2 : dictChunkSize (cur ++ [(k, v)]) = curSize + jsonSize v := by
              simp [dictChunkSize, hacc]
            omega

/-- Chunk-size invariant for dict input, on the runs where the planner does
not crash. -/
theorem chunkDict_sizes (m : Nat) (pairs : List (String × Json))
    (cs : List (List (String × Json))) (hok : chunkDict m pairs = .ok cs) :
    ∀ c ∈ cs,
      (∃ k v, m < jsonSize v ∧ ∃ os, oversizedSplit m k v = .ok os ∧ c ∈ os)
        ∨ dictChunkSize c ≤ m := by
  exact chunkDictGo_sizes m pairs [] 0 cs (by simp [dictChunkSize])
    (by simp [dictChunkSize]) hok

theorem sliceChunks_go_length (cp : Nat) (k : String) :
    ∀ (fuel : Nat) (xs : List Json), xs.length ≤ fuel →
      (sliceChunks.go cp k fuel xs).length = (xs.length + cp) / (cp + 1) := by
  intro fuel
  induction fuel with
  | zero =>
      intro xs hxs
      cases xs with
      | nil =>
          rw [sliceChunks.go]
          simp only [List.length_nil, Nat.zero_add]
          exact (Nat.div_eq_of_lt (by omega)).symm
      | cons x xs => simp at hxs
  | succ fuel ih =>
      intro xs hxs
      cases xs with
      | nil =>
          rw [sliceChunks.go]
          simp only [List.length_nil, Nat.zero_add]
          exact (Nat.div_eq_of_lt (by omega)).symm
      | cons x xs =>
          have hdroplen : ((x :: xs).drop (cp + 1)).length ≤ fuel := by
            simp only [List.length_drop, List.length_cons] at *
            omega
          rw [sliceChunks.go, List.length_cons, ih _ hdroplen]
          have hd : ((x :: xs).drop (cp + 1)).length = xs.length - cp := by
            simp only [List.length_drop, List.length_cons]
            omega
          rw [hd]
          have hstep : (x :: xs).length + cp = xs.length + (cp + 1) := by
            simp only [List.length_cons]
            omega
          rw [hstep, Nat.add_div_right _ (Nat.succ_pos cp)]
          by_cases hle : cp ≤ xs.length
          · have h1 : xs.length - cp + cp = xs.length := by omega
            rw [h1]
          · have h1 : xs.length - cp = 0 := by omega
            rw [h1]
            have h2 : (0 + cp) / (cp + 1) = 0 := Nat.div_eq_of_lt (by omega)
            have h3 : xs.length / (cp + 1) = 0 := Nat.div_eq_of_lt (by omega)
            rw [h2, h3]

/-- Number of sub-lists the oversized-list subdivision makes:
`ceil(len / chunk_size)`. -/
theorem sliceChunks_length (cp : Nat) (k : String) (xs : List Json) :
    (sliceChunks cp k xs).length = (xs.length + cp) / (cp + 1) :=
  sliceChunks_go_length cp k xs.length xs le_rfl

theorem sliceChunks_go_shape (cp : Nat) (k : String) :
    ∀ (fuel : Nat) (xs : List Json), ∀ c ∈ sliceChunks.go cp k fuel xs,
      ∃ ys, c = [(k, Json.arr ys)] := by
  intro fuel
  induction fuel with
  | zero =>
      intro xs c hc
      cases xs with
      | nil => rw [sliceChunks.go] at hc; cases hc
      | cons x xs => rw [sliceChunks.go] at hc; cases hc
  | succ fuel ih =>
      intro xs c hc
      cases xs with
      | nil => rw [sliceChunks.go] at hc; cases hc
      | cons x xs =>
          rw [sliceChunks.go] at hc
          rcases List.mem_cons.1 hc with rfl | hc
          · exact ⟨_, rfl⟩
          · exact ih _ c hc

theorem sliceChunks_shape (cp : Nat) (k : String) (xs : List Json) :
    ∀ c ∈ sliceChunks cp k xs, ∃ ys, c = [(k, Json.arr ys)] :=
  sliceChunks_go_shape cp k xs.length xs

/-! ## JobDataCollectorAgent.collect_jobs (`job_data_collector_agent.py`)

The role×location search loop is an oracle: one `SearchOutcome` per (role,
location) query, in loop order.  A search whose request raises is logged and
skipped (`continue`), as is one whose response lacks `jobs_results`. -/

inductive SearchOutcome where
  | failed (msg : String)
  | noResults
  | results (jobs : List Json)

/-- `job["search_location"] = location` (jobs are dicts in every modelled
run; item assignment keeps an existing key's position and appends a new
key). -/
def setField (j : Json) (key : String) (v : Json) : Json :=
  match j with
  | .obj fs =>
      if fs.any (fun p => p.1 = key) then
        .obj (fs.map (fun p => if p.1 = key then (p.1, v) else p))
      else
        .obj (fs ++ [(key, v)])
  | other => other

/-- `job_id = f"{job.get('company_name','')}_{job.get('title','')}_{job.get('location','')}"`. -/
def jobId (job : Json) : String :=
  pyStr (objGetD job "company_name" (.str "")) ++ "_"
    ++ pyStr (objGetD job "title" (.str "")) ++ "_"
    ++ pyStr (objGetD job "location" (.str ""))

/-- The inner `for job in jobs` loop: tag the job with its search location,
then append it only when its id has not been seen (`unique_jobs` is a set of
strings: modelled as a list with membership). -/
def addJobs (loc : String) :
    List Json → List String → List Json → List String × List Json
  | [], seen, acc => (seen, acc)
  | job :: rest, seen, acc =>
      let job2 := setField job "search_location" (.str loc)
      let id := jobId job2
      if id ∈ seen then addJobs loc rest seen acc
      else addJobs loc rest (id :: seen) (acc ++ [job2])

/-- The outer role×location loop over the search oracle's outcomes. -/
def collectLoop :
    List (String × SearchOutcome) → List String → List Json → List Json
  | [], _, acc => acc
  | (loc, outcome) :: rest, seen, acc =>
      match outcome with
      | .failed _ => collectLoop rest seen acc
      | .noResults => collectLoop rest seen acc
      | .results jobs =>
          let sa := addJobs loc jobs seen acc
          collectLoop rest sa.1 sa.2

/-- `collect_jobs(force_new)`: return the cached file when it exists (and is
readable, which the model assumes) and `force_new` is not set; otherwise run
the search loop. -/
def collect_jobs (cache : Option (List Json)) (force_new : Bool)
    (searches : List (String × SearchOutcome)) : List Json :=
  match cache with
  | some cached => if force_new then collectLoop searches [] [] else cached
  | none => collectLoop searches [] []

theorem addJobs_invariant (loc : String) :
    ∀ (jobs : List Json) (seen : List String) (acc : List Json),
      (∀ j ∈ acc, jobId j ∈ seen) → (acc.map jobId).Nodup →
      (∀ j ∈ (addJobs loc jobs seen acc).2, jobId j ∈ (addJobs loc jobs seen acc).1)
        ∧ ((addJobs loc jobs seen acc).2.map jobId).Nodup
        ∧ (∀ s ∈ seen, s ∈ (addJobs loc jobs seen acc).1) := by
  intro jobs
  induction jobs with
  | nil =>
      intro seen acc hsub hnd
      exact ⟨hsub, hnd, fun s hs => hs⟩
  | cons job rest ih =>
      intro seen acc hsub hnd
      rw [addJobs]
      by_cases hseen : jobId (setField job "search_location" (.str loc)) ∈ seen
      · rw [if_pos hseen]
        exact ih seen acc hsub hnd
      · rw [if_neg hseen]
        set job2 := setField job "search_location" (.str loc) with hjob2
        have hsub2 : ∀ j ∈ acc ++ [job2], jobId j ∈ jobId job2 :: seen := by
          intro j hj
          rcases List.mem_append.1 hj with hj | hj
          · exact List.mem_cons_of_mem _ (hsub j hj)
          · rcases List.mem_singleton.1 hj with rfl
            exact List.mem_cons_self _ _
        have hnd2 : ((acc ++ [job2]).map jobId).Nodup := by
          rw [List.map_append, List.map_singleton]
          refine (List.nodup_append.2 ⟨hnd, List.nodup_singleton _, ?_⟩)
          intro s hs
          simp only [List.mem_singleton]
          intro heq
          obtain ⟨j, hj, hjid⟩ := List.mem_map.1 hs
          exact hseen (heq ▸ hjid ▸ hsub j hj)
        have h := ih (jobId job2 :: seen) (acc ++ [job2]) hsub2 hnd2
        exact ⟨h.1, h.2.1, fun s hs => h.2.2 s (List.mem_cons_of_mem _ hs)⟩

theorem collectLoop_nodup :
    ∀ (searches : List (String × SearchOutcome)) (seen : List String) (acc : List Json),
      (∀ j ∈ acc, jobId j ∈ seen) → (acc.map jobId).Nodup →
      ((collectLoop searches seen acc).map jobId).Nodup := by
  intro searches
  induction searches with
  | nil => intro seen acc _ hnd; exact hnd
  | cons pair rest ih =>
      obtain ⟨loc, outcome⟩ := pair
      intro seen acc hsub hnd
      cases outcome with
      | failed msg => exact ih seen acc hsub hnd
      | noResults => exact ih seen acc hsub hnd
      | results jobs =>
          obtain ⟨h1, h2, _⟩ := addJobs_invariant loc jobs seen acc hsub hnd
          exact ih (addJobs loc jobs seen acc).1 (addJobs loc jobs seen acc).2 h1 h2

/-! ## JobMarketWorkflow (`main.py`)

The five LangGraph nodes run in chain order; every node except
`collect_data` wraps its body in `try/except Exception`, records the failure
in `state["error"]` and returns the state, so only `collect_data` can make
`ainvoke` (and hence `run`) raise.  The agents' compute functions, and the
two cache files the workflow can observe, are oracle fields of the
environment; each node reports which external compute it invoked. -/

structure WorkflowState where
  job_data : Option (List Json)
  tech_analysis : Option Json
  market_report : Option Json
  ai_impact : Option Json
  final_report : Option Json
  error : Option String

/-- One invocation of an agent's compute function (each performs at least one
external-service call). -/
inductive ServiceCall where
  | collectorAPI
  | techLLM
  | marketLLM
  | impactLLM
  | finalLLM
deriving DecidableEq, Repr

structure WorkflowEnv where
  /-- `--force-new` / `force_new_collection`. -/
  force_new_collection : Bool
  /-- Contents of `data/job_data.json` when that file exists. -/
  cacheJobData : Option (List Json)
  /-- Contents of `data/tech_analysis.json` when that file exists (written by
  a previous run; the workflow nodes never read it). -/
  cacheTechAnalysis : Option Json
  /-- Outcome of `collector.collect_jobs` on the fresh path. -/
  collectResult : Except String (List Json)
  /-- `analyzer.analyze_tech_requirements`. -/
  techResult : List Json → Except String Json
  /-- `reporter.generate_report`. -/
  marketResult : List Json → Json → Except String Json
  /-- `impact_analyzer.analyze_ai_impact`. -/
  impactResult : List Json → Json → Json → Except String Json
  /-- `final_reporter.generate_comprehensive_report`. -/
  finalResult : List Json → Json → Json → Json → Except String Json

def initialState : WorkflowState :=
  ⟨none, none, none, none, none, none⟩

/-- `collect_data`: short-circuit on the cache file unless forced; no
`try/except`, so a collector failure escapes the node. -/
def collect_data (env : WorkflowEnv) (s : WorkflowState) :
    Except String (WorkflowState × List ServiceCall) :=
  match env.cacheJobData, env.force_new_collection with
  | some cached, false => .ok ({ s with job_data := some cached }, [])
  | _, _ =>
      match env.collectResult with
      | .ok d => .ok ({ s with job_data := some d }, [ServiceCall.collectorAPI])
      | .error e => .error e

/-- `analyze_tech`: guard `if not state["job_data"]`, then the analyzer; any
exception is caught and recorded in `state["error"]`. -/
def analyze_tech (env : WorkflowEnv) (s : WorkflowState) :
    WorkflowState × List ServiceCall :=
  match s.job_data with
  | some (j :: js) =>
      match env.techResult (j :: js) with
      | .ok t => ({ s with tech_analysis := some t }, [ServiceCall.techLLM])
      | .error e =>
          ({ s with error := some ("Tech analysis failed: " ++ e) },
            [ServiceCall.techLLM])
  | _ => ({ s with error := some "Tech analysis failed: No job data available" }, [])

/-- `generate_market_report`: guard
`if not state["job_data"] or not state["tech_analysis"]`. -/
def generate_market_report (env : WorkflowEnv) (s : WorkflowState) :
    WorkflowState × List ServiceCall :=
  match s.job_data, s.tech_analysis with
  | some (j :: js), some t =>
      if truthy t then
        match env.marketResult (j :: js) t with
        | .ok r => ({ s with market_report := some r }, [ServiceCall.marketLLM])
        | .error e =>
            ({ s with error := some ("Market report generation failed: " ++ e) },
              [ServiceCall.marketLLM])
      else
        ({ s with error := some "Market report generation failed: Missing required data for market report" }, [])
  | _, _ =>
      ({ s with error := some "Market report generation failed: Missing required data for market report" }, [])

/-- `analyze_ai_impact`: guard `if not all([job_data, tech_analysis,
market_report])`. -/
def analyze_ai_impact_node (env : WorkflowEnv) (s : WorkflowState) :
    WorkflowState × List ServiceCall :=
  match s.job_data, s.tech_analysis, s.market_report with
  | some (j :: js), some t, some r =>
      if truthy t && truthy r then
        match env.impactResult (j :: js) t r with
        | .ok a => ({ s with ai_impact := some a }, [ServiceCall.impactLLM])
        | .error e =>
            ({ s with error := some ("AI impact analysis failed: " ++ e) },
              [ServiceCall.impactLLM])
      else
        ({ s with error := some "AI impact analysis failed: Missing required data for AI impact analysis" }, [])
  | _, _, _ =>
      ({ s with error := some "AI impact analysis failed: Missing required data for AI impact analysis" }, [])

/-- `generate_final_report`: guard over all four upstream results. -/
def generate_final_report (env : WorkflowEnv) (s : WorkflowState) :
    WorkflowState × List ServiceCall :=
  match s.job_data, s.tech_analysis, s.market_report, s.ai_impact with
  | some (j :: js), some t, some r, some a =>
      if truthy t && truthy r && truthy a then
        match env.finalResult (j :: js) t r a with
        | .ok f => ({ s with final_report := some f }, [ServiceCall.finalLLM])
        | .error e =>
            ({ s with error := some ("Final report generation failed: " ++ e) },
              [ServiceCall.finalLLM])
      else
        ({ s with error := some "Final report generation failed: Missing required data for report generation" }, [])
  | _, _, _, _ =>
      ({ s with error := some "Final report generation failed: Missing required data for report generation" }, [])

/-- `JobMarketWorkflow.run`: `ainvoke` walks the unconditional edge chain
`collect_data → analyze_tech → generate_market_report → analyze_ai_impact →
generate_final_report`; an uncaught exception (only possible in
`collect_data`) is re-raised, otherwise the final state is returned
normally. -/
def run (env : WorkflowEnv) : Except String (WorkflowState × List ServiceCall) :=
  match collect_data env initialState with
  | .error e => .error e
  | .ok (s1, c1) =>
      let r2 := analyze_tech env s1
      let r3 := generate_market_report env r2.1
      let r4 := analyze_ai_impact_node env r3.1
      let r5 := generate_final_report env r4.1
      .ok (r5.1, c1 ++ r2.2 ++ r3.2 ++ r4.2 ++ r5.2)

/-! ## Claim theorems -/

/-- C10: on a fresh collection run (no readable cache, or `force_new` set),
the returned job list contains no two records with the same identity key
`f"{company_name}_{title}_{location}"` — each key is recorded in the
`unique_jobs` set and an already-seen record is not appended. -/
theorem c10_collect_unique_ids (cache : Option (List Json)) (force_new : Bool)
    (searches : List (String × SearchOutcome))
    (hfresh : cache = none ∨ force_new = true) :
    ((collect_jobs cache force_new searches).map jobId).Nodup := by
  rcases hfresh with rfl | rfl
  · exact collectLoop_nodup searches [] [] (by intro j hj; cases hj) (by simp)
  · cases cache with
    | none => exact collectLoop_nodup searches [] [] (by intro j hj; cases hj) (by simp)
    | some cached =>
        show ((collectLoop searches [] []).map jobId).Nodup
        exact collectLoop_nodup searches [] [] (by intro j hj; cases hj) (by simp)

/-- Witness for C10 at a concrete search trace that returns duplicates. -/
theorem c10_collect_unique_ids_witness :
    ((collect_jobs none false
        [("United States", SearchOutcome.results
            [Json.obj [("title", Json.str "Engineer"), ("company_name", Json.str "Acme"),
                       ("location", Json.str "NY")],
             Json.obj [("title", Json.str "Engineer"), ("company_name", Json.str "Acme"),
                       ("location", Json.str "NY")]]),
         ("Canada", SearchOutcome.results
            [Json.obj [("title", Json.str "Engineer"), ("company_name", Json.str "Acme"),
                       ("location", Json.str "NY")]])]).map jobId).Nodup :=
  c10_collect_unique_ids none false _ (Or.inl rfl)

/-- C7: for every positive budget, every chunk produced by `_chunk_data` —
list input and dict input alike — either stems from a single oversized item
(the shrunken singleton, or a fragment of an oversized value) or keeps the
total serialized size of its members within the budget. -/
theorem c7_chunk_size_invariant (m : Nat) (_hm : 0 < m) (items : List Json)
    (pairs : List (String × Json)) (cs : List (List (String × Json))) :
    (∀ c ∈ chunkList m items,
        (∃ it, m < jsonSize it ∧ c = [shrinkItem m it]) ∨ listChunkSize c ≤ m)
    ∧ (chunkDict m pairs = .ok cs →
        ∀ c ∈ cs,
          (∃ k v, m < jsonSize v ∧ ∃ os, oversizedSplit m k v = .ok os ∧ c ∈ os)
            ∨ dictChunkSize c ≤ m) :=
  ⟨chunkList_sizes m items, fun hok => chunkDict_sizes m pairs cs hok⟩

/-- Witness for C7 at budget 10 on a concrete mixed list. -/
theorem c7_chunk_size_invariant_witness :
    (∀ c ∈ chunkList 10 [Json.str "aa", Json.str "bbbb", Json.int 7,
        Json.str "a string that is far too long for the budget"],
        (∃ it, 10 < jsonSize it ∧ c = [shrinkItem 10 it]) ∨ listChunkSize c ≤ 10)
    ∧ (chunkDict 10 [("a", Json.int 1), ("b", Json.int 22222222)] = .ok
          [[("a", Json.int 1), ("b", Json.int 22222222)]] →
        ∀ c ∈ [[("a", Json.int 1), ("b", Json.int 22222222)]],
          (∃ k v, 10 < jsonSize v ∧ ∃ os, oversizedSplit 10 k v = .ok os ∧ c ∈ os)
            ∨ dictChunkSize c ≤ 10) :=
  c7_chunk_size_invariant 10 (by decide) _ _ _

/-- C8 counterexample: an oversized list value of serialized size 35 under
budget 10 is cut into 5 sub-lists, not `⌈35 / 10⌉ = 4` as the claim states
(`chunk_size = 5 // (35 // 10 + 1) = 1`, giving `⌈5 / 1⌉ = 5` slices). -/
theorem c8_subdivision_count_counterexample :
    chunkDict 10 [("k", Json.arr [Json.str "aaa", Json.str "bbb", Json.str "ccc",
        Json.str "ddd", Json.str "eee"])]
      = .ok [[("k", Json.arr [Json.str "aaa"])], [("k", Json.arr [Json.str "bbb"])],
             [("k", Json.arr [Json.str "ccc"])], [("k", Json.arr [Json.str "ddd"])],
             [("k", Json.arr [Json.str "eee"])]]
    ∧ jsonSize (Json.arr [Json.str "aaa", Json.str "bbb", Json.str "ccc",
        Json.str "ddd", Json.str "eee"]) = 35
    ∧ (35 + 10 - 1) / 10 = 4
    ∧ [[("k", Json.arr [Json.str "aaa"])], [("k", Json.arr [Json.str "bbb"])],
       [("k", Json.arr [Json.str "ccc"])], [("k", Json.arr [Json.str "ddd"])],
       [("k", Json.arr [Json.str "eee"])]].length ≠ 4 :=
  ⟨rfl, rfl, rfl, by decide⟩

/-- C8 (amended): an oversized list value is subdivided into contiguous
slices of `chunk_size = len(value) // (value_size // max_size + 1)` items
(provided that is non-zero — otherwise Python's `range` raises), producing
`⌈len(value) / chunk_size⌉` one-key chunks, which can exceed
`⌈value_size / max_size⌉`; an oversized string value is hard-truncated to
`max_size`. -/
theorem c8_oversized_split (m : Nat) (k : String) (xs : List Json) (s : String)
    (hcs : xs.length / (jsonSize (Json.arr xs) / m + 1) ≠ 0) :
    (oversizedSplit m k (Json.arr xs)
        = .ok (sliceChunks (xs.length / (jsonSize (Json.arr xs) / m + 1) - 1) k xs)
      ∧ (sliceChunks (xs.length / (jsonSize (Json.arr xs) / m + 1) - 1) k xs).length
          = (xs.length + (xs.length / (jsonSize (Json.arr xs) / m + 1)) - 1)
              / (xs.length / (jsonSize (Json.arr xs) / m + 1))
      ∧ ∀ c ∈ sliceChunks (xs.length / (jsonSize (Json.arr xs) / m + 1) - 1) k xs,
          ∃ ys, c = [(k, Json.arr ys)])
    ∧ oversizedSplit m k (Json.str s) = .ok [[(k, Json.str (s.take m))]] := by
  refine ⟨⟨?_, ?_, sliceChunks_shape _ k xs⟩, rfl⟩
  · rw [oversizedSplit]
    simp only [hcs, if_false]
  · rw [sliceChunks_length]
    have hpos : 0 < xs.length / (jsonSize (Json.arr xs) / m + 1) :=
      Nat.pos_of_ne_zero hcs
    have h1 : xs.length / (jsonSize (Json.arr xs) / m + 1) - 1 + 1
        = xs.length / (jsonSize (Json.arr xs) / m + 1) := by omega
    have h2 : xs.length + (xs.length / (jsonSize (Json.arr xs) / m + 1) - 1)
        = xs.length + xs.length / (jsonSize (Json.arr xs) / m + 1) - 1 := by omega
    rw [h1, h2]

/-- Witness for C8 at the 35-byte list under budget 10 and a long string. -/
theorem c8_oversized_split_witness :
    (oversizedSplit 10 "k" (Json.arr [Json.str "aaa", Json.str "bbb", Json.str "ccc",
        Json.str "ddd", Json.str "eee"])
        = .ok (sliceChunks ([Json.str "aaa", Json.str "bbb", Json.str "ccc",
            Json.str "ddd", Json.str "eee"].length
              / (jsonSize (Json.arr [Json.str "aaa", Json.str "bbb", Json.str "ccc",
                  Json.str "ddd", Json.str "eee"]) / 10 + 1) - 1) "k"
            [Json.str "aaa", Json.str "bbb", Json.str "ccc", Json.str "ddd", Json.str "eee"])
      ∧ (sliceChunks ([Json.str "aaa", Json.str "bbb", Json.str "ccc",
            Json.str "ddd", Json.str "eee"].length
              / (jsonSize (Json.arr [Json.str "aaa", Json.str "bbb", Json.str "ccc",
                  Json.str "ddd", Json.str "eee"]) / 10 + 1) - 1) "k"
            [Json.str "aaa", Json.str "bbb", Json.str "ccc", Json.str "ddd",
             Json.str "eee"]).length
          = ([Json.str "aaa", Json.str "bbb", Json.str "ccc", Json.str "ddd",
              Json.str "eee"].length
              + ([Json.str "aaa", Json.str "bbb", Json.str "ccc", Json.str "ddd",
                  Json.str "eee"].length
                / (jsonSize (Json.arr [Json.str "aaa", Json.str "bbb", Json.str "ccc",
                    Json.str "ddd", Json.str "eee"]) / 10 + 1)) - 1)
              / ([Json.str "aaa", Json.str "bbb", Json.str "ccc", Json.str "ddd",
                  Json.str "eee"].length
                / (jsonSize (Json.arr [Json.str "aaa", Json.str "bbb", Json.str "ccc",
                    Json.str "ddd", Json.str "eee"]) / 10 + 1))
      ∧ ∀ c ∈ sliceChunks ([Json.str "aaa", Json.str "bbb", Json.str "ccc",
            Json.str "ddd", Json.str "eee"].length
              / (jsonSize (Json.arr [Json.str "aaa", Json.str "bbb", Json.str "ccc",
                  Json.str "ddd", Json.str "eee"]) / 10 + 1) - 1) "k"
            [Json.str "aaa", Json.str "bbb", Json.str "ccc", Json.str "ddd", Json.str "eee"],
          ∃ ys, c = [("k", Json.arr ys)])
    ∧ oversizedSplit 10 "k" (Json.str "a string that is far too long")
        = .ok [[("k", Json.str ("a string that is far too long".take 10))]] :=
  c8_oversized_split 10 "k" _ "a string that is far too long" (by decide)

/-- C9 counterexample: the two counter partials of the claim's scenario
reduce (merge then stable descending sort) to python-first
`[("python",5),("rust",4),("go",1)]`, not to the claimed
`[("rust",4),("python",5),("go",1)]`. -/
theorem c9_sort_scenario_counterexample :
    sortDesc (mergeCounters [[("python", 3), ("go", 1)], [("python", 2), ("rust", 4)]])
      = [("python", 5), ("rust", 4), ("go", 1)]
    ∧ sortDesc (mergeCounters [[("python", 3), ("go", 1)], [("python", 2), ("rust", 4)]])
      ≠ [("rust", 4), ("python", 5), ("go", 1)] :=
  ⟨by decide, by decide⟩

/-- C9 (amended): each merged counter category is sorted stably by descending
count — the sort permutes the merged table into weakly descending order,
ties keep first-seen order (tie example), and the claim's scenario yields
`{"python":5,"rust":4,"go":1}`. -/
theorem c9_sort_descending (ps : List (List (String × Int))) :
    (sortDesc (mergeCounters ps)).Perm (mergeCounters ps)
    ∧ (sortDesc (mergeCounters ps)).Pairwise (fun a b => b.2 ≤ a.2)
    ∧ sortDesc (mergeCounters [[("python", 3), ("go", 1)], [("python", 2), ("rust", 4)]])
        = [("python", 5), ("rust", 4), ("go", 1)]
    ∧ sortDesc (mergeCounters [[("alpha", 1)], [("beta", 1)]]) = [("alpha", 1), ("beta", 1)] :=
  ⟨perm_sortDesc _, pairwise_sortDesc _, by decide, by decide⟩

/-- C6 counterexample: the tech analyzer's counter merge adds counts without
coercion, so a non-numeric count raises `TypeError` instead of coercing
to 0. -/
theorem c6_tech_nonnumeric_raises :
    techCounterReduce [[("python", Json.str "many")]]
      = .error "TypeError: unsupported operand for +" := rfl

/-- C6 (amended): the market reporter's merge pushes every count through
`ensure_int` — each key's merged value is the sum of the coerced counts and
non-numeric values coerce to 0 without raising — while the tech analyzer's
merge raises `TypeError` on a non-numeric count. -/
theorem c6_market_coerces_tech_raises :
    (∀ (ps : List (List (String × Json))) (k : String),
      (marketCounterReduce ps).lookup k
        = if (ps.map (fun p => p.map (fun kv => (kv.1, ensureInt kv.2)))).any
              (fun p => hasKey p k)
          then some (((ps.map (fun p => p.map (fun kv => (kv.1, ensureInt kv.2)))).map
              (fun p => keySum p k)).sum)
          else none)
    ∧ ensureInt (Json.str "many") = 0
    ∧ ensureInt Json.null = 0
    ∧ ensureInt (Json.str "12") = 12
    ∧ techCounterReduce [[("python", Json.str "many")]]
        = .error "TypeError: unsupported operand for +" := by
  refine ⟨?_, by decide, rfl, by decide, rfl⟩
  intro ps k
  rw [marketCounterReduce_eq_mergeCounters, lookup_mergeCounters]

/-- C5 counterexample: the tech analyzer's `emerging_trends` merge pours the
lists into a Python `set` and returns `list(...)` of it, which guarantees
only membership and no-duplicates — the hash-order output
`["b","a","c"]` is admissible for `["a","b"]` then `["b","c"]`, and it is not
the claimed first-seen order `["a","b","c"]`. -/
theorem c5_trends_set_order_counterexample :
    techTrendsAdmissible
      [Json.obj [("emerging_trends", Json.arr [Json.str "a", Json.str "b"])],
       Json.obj [("emerging_trends", Json.arr [Json.str "b", Json.str "c"])]]
      [Json.str "b", Json.str "a", Json.str "c"]
    ∧ [Json.str "b", Json.str "a", Json.str "c"]
        ≠ [Json.str "a", Json.str "b", Json.str "c"] :=
  ⟨by decide, by decide⟩

/-- C5 (amended): the AI-impact analyzer's set-like merge — `extend` then
`list(dict.fromkeys(...))` — concatenates the partials' lists and removes
later duplicates preserving first-appearance order (it equals the spec's
first-seen rule, is duplicate-free, is a sublist of the concatenation with
the same members, and maps `["a","b"]` then `["b","c"]` to `["a","b","c"]`);
the tech analyzer's `emerging_trends` merge instead goes through an unordered
`set` and does not fix the order. -/
theorem c5_ai_dedup_first_seen (impacts : List Json) (key : String) :
    combineImpactKey impacts key
        = dedupFirstSeen ((impacts.map (fun i => getListD i key)).flatten)
    ∧ (combineImpactKey impacts key).Nodup
    ∧ (combineImpactKey impacts key).Sublist
        ((impacts.map (fun i => getListD i key)).flatten)
    ∧ (∀ x, x ∈ combineImpactKey impacts key
        ↔ x ∈ (impacts.map (fun i => getListD i key)).flatten)
    ∧ combineImpactKey
        [Json.obj [("required_ai_skills", Json.arr [Json.str "a", Json.str "b"])],
         Json.obj [("required_ai_skills", Json.arr [Json.str "b", Json.str "c"])]]
        "required_ai_skills"
        = [Json.str "a", Json.str "b", Json.str "c"] :=
  ⟨pyDictFromKeys_eq_dedupFirstSeen _, nodup_pyDictFromKeys _, sublist_pyDictFromKeys _,
    fun x => mem_pyDictFromKeys _ x, by decide⟩

/-- C4 counterexample: reordering two PartialResults changes the set-like
output lists themselves (first-seen order follows the input order), so the
reduced AggregateResults are not equal. -/
theorem c4_setlike_not_perm_invariant :
    [Json.obj [("required_ai_skills", Json.arr [Json.str "x"])],
     Json.obj [("required_ai_skills", Json.arr [Json.str "y"])]].Perm
      [Json.obj [("required_ai_skills", Json.arr [Json.str "y"])],
       Json.obj [("required_ai_skills", Json.arr [Json.str "x"])]]
    ∧ combineImpacts
        [Json.obj [("required_ai_skills", Json.arr [Json.str "x"])],
         Json.obj [("required_ai_skills", Json.arr [Json.str "y"])]]
      ≠ combineImpacts
        [Json.obj [("required_ai_skills", Json.arr [Json.str "y"])],
         Json.obj [("required_ai_skills", Json.arr [Json.str "x"])]] :=
  ⟨List.Perm.swap _ _ _, by decide⟩

/-- C4 (amended): reduction is permutation-invariant for counter categories
as key→count mappings (same keys present, same summed counts — Python dict
equality) and for set-like categories up to membership; the set-like lists
themselves keep first-appearance order, which depends on the input order. -/
theorem c4_reduce_perm_invariance (ps ps' : List (List (String × Int)))
    (h : ps.Perm ps') (is is' : List Json) (hi : is.Perm is') (key : String) :
    (∀ k, (mergeCounters ps).lookup k = (mergeCounters ps').lookup k)
    ∧ (∀ x, x ∈ combineImpactKey is key ↔ x ∈ combineImpactKey is' key) := by
  constructor
  · intro k
    exact lookup_mergeCounters_perm ps ps' h k
  · intro x
    have hmem : ∀ (a b : List Json), a.Perm b →
        x ∈ (a.map (fun i => getListD i key)).flatten →
        x ∈ (b.map (fun i => getListD i key)).flatten := by
      intro a b hab hx
      rw [List.mem_flatten] at hx ⊢
      obtain ⟨l, hl, hxl⟩ := hx
      obtain ⟨i, hia, rfl⟩ := List.mem_map.1 hl
      exact ⟨getListD i key, List.mem_map.2 ⟨i, hab.mem_iff.1 hia, rfl⟩, hxl⟩
    constructor
    · intro hx
      exact (mem_pyDictFromKeys _ x).2 (hmem is is' hi ((mem_pyDictFromKeys _ x).1 hx))
    · intro hx
      exact (mem_pyDictFromKeys _ x).2 (hmem is' is hi.symm ((mem_pyDictFromKeys _ x).1 hx))

/-- Witness for C4 on concrete two-element reorderings. -/
theorem c4_reduce_perm_invariance_witness :
    (∀ k, (mergeCounters [[("python", 3)], [("go", 2)]]).lookup k
        = (mergeCounters [[("go", 2)], [("python", 3)]]).lookup k)
    ∧ (∀ x, x ∈ combineImpactKey
          [Json.obj [("required_ai_skills", Json.arr [Json.str "x"])],
           Json.obj [("required_ai_skills", Json.arr [Json.str "y"])]] "required_ai_skills"
        ↔ x ∈ combineImpactKey
          [Json.obj [("required_ai_skills", Json.arr [Json.str "y"])],
           Json.obj [("required_ai_skills", Json.arr [Json.str "x"])]] "required_ai_skills") :=
  c4_reduce_perm_invariance _ _ (by decide) _ _ (by decide) "required_ai_skills"

/-- The tech analyzer's batch loop returns all parsed analyses when every
worker call either parses or fails with a JSON parse error: parse-failing
batches are skipped, the rest are kept in order. -/
theorem techAnalysesLoop_partition (worker : List Json → LLMOutcome) :
    ∀ bs : List (List Json),
      (∀ b ∈ bs, (worker (b.map simplifyJobTech)).isParsed = true
          ∨ (worker (b.map simplifyJobTech)).isBadJson = true) →
      ∃ l, techAnalysesLoop worker bs = .ok l
        ∧ l.length
            + (bs.filter (fun b => (worker (b.map simplifyJobTech)).isBadJson)).length
            = bs.length := by
  intro bs
  induction bs with
  | nil => intro _; exact ⟨[], rfl, rfl⟩
  | cons b rest ih =>
      intro hall
      obtain ⟨l, hok, hlen⟩ := ih (fun b hb => hall b (List.mem_cons_of_mem _ hb))
      rcases hall b (List.mem_cons_self _ _) with hp | hbad
      · cases hw : worker (b.map simplifyJobTech) with
        | failure msg => rw [hw] at hp; cases hp
        | badJson raw => rw [hw] at hp; cases hp
        | parsed j =>
            refine ⟨j :: l, ?_, ?_⟩
            · rw [techAnalysesLoop, hw, hok]
              rfl
            · have hf : (b :: rest).filter
                  (fun b => (worker (b.map simplifyJobTech)).isBadJson)
                  = rest.filter (fun b => (worker (b.map simplifyJobTech)).isBadJson) := by
                rw [List.filter_cons]
                simp [hw, LLMOutcome.isBadJson]
              rw [hf, List.length_cons, List.length_cons]
              omega
      · cases hw : worker (b.map simplifyJobTech) with
        | failure msg => rw [hw] at hbad; cases hbad
        | parsed j => rw [hw] at hbad; cases hbad
        | badJson raw =>
            refine ⟨l, ?_, ?_⟩
            · rw [techAnalysesLoop, hw]
              exact hok
            · have hf : (b :: rest).filter
                  (fun b => (worker (b.map simplifyJobTech)).isBadJson)
                  = b :: rest.filter (fun b => (worker (b.map simplifyJobTech)).isBadJson) := by
                rw [List.filter_cons]
                simp [hw, LLMOutcome.isBadJson]
              rw [hf, List.length_cons, List.length_cons]
              omega

/-- C2 (amended, tech analyzer): when the input splits into N batches and
exactly one worker call fails with a parse error (the rest parse), the stage
skips that batch and returns the N−1 remaining partial analyses without
raising — but see the counterexample: the AI-impact analyzer re-raises
instead. -/
theorem c2_tech_batch_isolation (worker : List Json → LLMOutcome) (job_data : List Json)
    (hall : ∀ b ∈ batches 20 job_data,
        (worker (b.map simplifyJobTech)).isParsed = true
          ∨ (worker (b.map simplifyJobTech)).isBadJson = true)
    (hone : ((batches 20 job_data).filter
        (fun b => (worker (b.map simplifyJobTech)).isBadJson)).length = 1) :
    ∃ l, techAnalyses worker job_data = .ok l
      ∧ l.length = (batches 20 job_data).length - 1 := by
  obtain ⟨l, hok, hlen⟩ := techAnalysesLoop_partition worker (batches 20 job_data) hall
  exact ⟨l, hok, by omega⟩

/-- Witness for C2's amended statement: a single batch whose reply does not
parse yields zero partials and no exception. -/
theorem c2_tech_batch_isolation_witness :
    ∃ l, techAnalyses (fun _ => LLMOutcome.badJson "not json")
        [Json.obj [("title", Json.str "t")]] = .ok l
      ∧ l.length = (batches 20 [Json.obj [("title", Json.str "t")]]).length - 1 :=
  c2_tech_batch_isolation (fun _ => LLMOutcome.badJson "not json")
    [Json.obj [("title", Json.str "t")]] (by decide) (by decide)

/-- C2 counterexample: in the AI-impact analyzer a single parse-failing batch
makes the whole stage raise (the claim says batch processing logs, drops the
batch and does not raise). -/
theorem c2_ai_parse_error_raises :
    analyze_ai_impact (fun _ => LLMOutcome.badJson "bad")
        [Json.obj [("title", Json.str "t")]]
      = .error "JSONDecodeError: bad"
    ∧ (batches 10 [Json.obj [("title", Json.str "t")]]).length = 1
    ∧ ((batches 10 [Json.obj [("title", Json.str "t")]]).filter
        (fun b => ((fun _ => LLMOutcome.badJson "bad") (b.map simplifyJobImpact)).isBadJson)).length
      = 1 :=
  ⟨rfl, rfl, rfl⟩

/-- An environment whose tech-analysis compute raises: empty cache, one
collected job, downstream agents that would succeed. -/
def envC1 : WorkflowEnv where
  force_new_collection := false
  cacheJobData := none
  cacheTechAnalysis := none
  collectResult := .ok [Json.obj [("title", Json.str "Engineer")]]
  techResult := fun _ => .error "boom"
  marketResult := fun _ _ => .ok (Json.obj [("x", Json.int 1)])
  impactResult := fun _ _ _ => .ok (Json.obj [("x", Json.int 1)])
  finalResult := fun _ _ _ _ => .ok (Json.obj [("x", Json.int 1)])

/-- C1 counterexample: when the tech stage's compute raises, the run still
completes NORMALLY — `run` returns `ok`, with the failure only recorded in
the state's error field (and even overwritten by the later stages' guard
failures), instead of propagating the stage name and cause to the caller as
an error. -/
theorem c1_stage_error_absorbed :
    run envC1
      = .ok ({ job_data := some [Json.obj [("title", Json.str "Engineer")]],
               tech_analysis := none, market_report := none, ai_impact := none,
               final_report := none,
               error := some "Final report generation failed: Missing required data for report generation" },
             [ServiceCall.collectorAPI, ServiceCall.techLLM])
    ∧ envC1.techResult [Json.obj [("title", Json.str "Engineer")]] = .error "boom" :=
  ⟨rfl, rfl⟩

/-- C1 (amended): when the tech-analysis compute raises, the node catches the
exception and records it in `state["error"]`; the chain is not aborted — the
remaining nodes still run, but their guards stop the downstream agent computes
(only the collector and the tech analyzer are ever invoked) and overwrite the
error field; `run` returns the final state normally instead of raising.  Only
`collect_data`, which has no try/except, can abort the run. -/
theorem c1_stage_failure_recorded (env : WorkflowEnv) (d : List Json) (msg : String)
    (hcache : env.cacheJobData = none)
    (hcollect : env.collectResult = .ok d)
    (hne : d ≠ [])
    (hfail : env.techResult d = .error msg) :
    run env
      = .ok ({ job_data := some d, tech_analysis := none, market_report := none,
               ai_impact := none, final_report := none,
               error := some "Final report generation failed: Missing required data for report generation" },
             [ServiceCall.collectorAPI, ServiceCall.techLLM]) := by
  obtain ⟨j, js, rfl⟩ : ∃ j js, d = j :: js := by
    cases d with
    | nil => exact absurd rfl hne
    | cons j js => exact ⟨j, js, rfl⟩
  have hcd : collect_data env initialState
      = .ok (⟨some (j :: js), none, none, none, none, none⟩, [ServiceCall.collectorAPI]) := by
    rw [collect_data, hcache, hcollect]
    cases env.force_new_collection <;> rfl
  rw [run, hcd]
  simp only [analyze_tech, hfail, generate_market_report, analyze_ai_impact_node,
    generate_final_report]
  rfl

/-- Witness for C1's amended statement at the concrete failing environment. -/
theorem c1_stage_failure_witness :
    run envC1
      = .ok ({ job_data := some [Json.obj [("title", Json.str "Engineer")]],
               tech_analysis := none, market_report := none, ai_impact := none,
               final_report := none,
               error := some "Final report generation failed: Missing required data for report generation" },
             [ServiceCall.collectorAPI, ServiceCall.techLLM]) :=
  c1_stage_failure_recorded envC1 [Json.obj [("title", Json.str "Engineer")]] "boom"
    rfl rfl (by decide) rfl

/-- An environment for a second run: every stage's cache artifact already
exists on disk (`data/job_data.json`, `data/tech_analysis.json`), no forced
refresh, all agents succeed. -/
def envC3 : WorkflowEnv where
  force_new_collection := false
  cacheJobData := some [Json.obj [("title", Json.str "Engineer")]]
  cacheTechAnalysis := some (Json.obj [("technical_skills", Json.obj [("python", Json.int 5)])])
  collectResult := .ok [Json.obj [("title", Json.str "Engineer")]]
  techResult := fun _ => .ok (Json.obj [("technical_skills", Json.obj [("python", Json.int 5)])])
  marketResult := fun _ _ => .ok (Json.obj [("salary_insights", Json.obj [("r", Json.int 1)])])
  impactResult := fun _ _ _ => .ok (Json.obj [("ai_role_analysis", Json.arr [Json.str "a"])])
  finalResult := fun _ _ _ _ => .ok (Json.str "report")

/-- C3 counterexample: on a second run with every cache artifact present and
no forced refresh, the workflow still invokes the tech analyzer's compute
(and the later agents): only the data-collection stage short-circuits, so the
run performs external-service calls for a stage whose cache entry exists. -/
theorem c3_cached_stage_recomputed :
    run envC3
      = .ok ({ job_data := some [Json.obj [("title", Json.str "Engineer")]],
               tech_analysis :=
                 some (Json.obj [("technical_skills", Json.obj [("python", Json.int 5)])]),
               market_report :=
                 some (Json.obj [("salary_insights", Json.obj [("r", Json.int 1)])]),
               ai_impact := some (Json.obj [("ai_role_analysis", Json.arr [Json.str "a"])]),
               final_report := some (Json.str "report"),
               error := none },
             [ServiceCall.techLLM, ServiceCall.marketLLM, ServiceCall.impactLLM,
              ServiceCall.finalLLM])
    ∧ envC3.force_new_collection = false
    ∧ envC3.cacheTechAnalysis.isSome = true
    ∧ ServiceCall.techLLM
        ∈ [ServiceCall.techLLM, ServiceCall.marketLLM, ServiceCall.impactLLM,
           ServiceCall.finalLLM] :=
  ⟨rfl, rfl, rfl, by decide⟩

/-- C3 (amended): only the data-collection stage consults its cache — with
`data/job_data.json` present and no `--force-new` it loads the cached list
and performs zero external calls — while `analyze_tech` invokes the
analyzer's compute (one external call) whenever job data is present,
regardless of any existing `data/tech_analysis.json`. -/
theorem c3_only_collect_stage_cached (env : WorkflowEnv) (cached : List Json)
    (hcache : env.cacheJobData = some cached)
    (hforce : env.force_new_collection = false) :
    collect_data env initialState
      = .ok ({ initialState with job_data := some cached }, [])
    ∧ (∀ (s : WorkflowState) (j : Json) (js : List Json),
        s.job_data = some (j :: js) →
        (analyze_tech env s).2 = [ServiceCall.techLLM]) := by
  constructor
  · rw [collect_data, hcache, hforce]
  · intro s j js hjd
    cases henv : env.techResult (j :: js) with
    | error e => simp [analyze_tech, hjd, henv]
    | ok t => simp [analyze_tech, hjd, henv]

/-- Witness for C3's amended statement at the all-cached environment. -/
theorem c3_only_collect_stage_cached_witness :
    collect_data envC3 initialState
      = .ok ({ initialState with
          job_data := some [Json.obj [("title", Json.str "Engineer")]] }, [])
    ∧ (∀ (s : WorkflowState) (j : Json) (js : List Json),
        s.job_data = some (j :: js) →
        (analyze_tech envC3 s).2 = [ServiceCall.techLLM]) :=
  c3_only_collect_stage_cached envC3 [Json.obj [("title", Json.str "Engineer")]] rfl rfl

end JobMarket
